import Mathlib

/-!
Verification of InvenTree helper and stock logic.

Shallow embedding of:
- `ExtractSerialNumbers` (InvenTree/InvenTree/helpers.py)
- `MakeBarcode` (InvenTree/InvenTree/helpers.py)
- `StockItem.splitStock` (stock model; modelled from the spec, see below)
-/

namespace InvenTree

/-- Whitespace characters: Python's `str.strip()` default set and the `\s`
class of the regex `[\s,]+` (ASCII fragment). -/
def isSpaceChar (c : Char) : Bool :=
  c == ' ' || c == '\t' || c == '\n' || c == '\r' || c == '\x0b' || c == '\x0c'

/-- Characters matched by the splitting regex `[\s,]+` in
`ExtractSerialNumbers`: whitespace or comma. -/
def isSepChar (c : Char) : Bool :=
  isSpaceChar c || c == ','

/-- Python `str.strip()`: remove leading and trailing whitespace. -/
def stripChars (l : List Char) : List Char :=
  ((l.dropWhile isSpaceChar).reverse.dropWhile isSpaceChar).reverse

/-- Python `re.split("[\s,]+", s)`: split on maximal nonempty runs of
separator characters, keeping empty pieces at the ends when the string
starts or ends with a separator (as `re.split` does). -/
def splitSep : List Char → List (List Char)
  | [] => [[]]
  | c :: cs =>
    if isSepChar c then
      match cs with
      | [] => [] :: splitSep cs
      | c2 :: _ => if isSepChar c2 then splitSep cs else [] :: splitSep cs
    else
      match splitSep cs with
      | [] => [[c]]
      | r :: rs => (c :: r) :: rs

/-- Python `group.split('-')`: split at every hyphen, keeping empty pieces. -/
def splitHyphen : List Char → List (List Char)
  | [] => [[]]
  | c :: cs =>
    if c == '-' then [] :: splitHyphen cs
    else
      match splitHyphen cs with
      | [] => [[c]]
      | r :: rs => (c :: r) :: rs

/-- Value of a nonempty string of decimal digits, `none` otherwise. -/
def digitsVal (l : List Char) : Option Nat :=
  if l = [] then none
  else
    l.foldl
      (fun acc c =>
        match acc with
        | none => none
        | some v => if c.isDigit then some (v * 10 + (c.toNat - '0'.toNat)) else none)
      (some 0)

/-- Python `int(s)` on an already-stripped string: optional sign followed by a
nonempty run of decimal digits (digit-group underscores are not modelled;
no input in scope uses them). -/
def pyInt (l : List Char) : Option Int :=
  match l with
  | '+' :: ds => (digitsVal ds).map (fun n => (n : Int))
  | '-' :: ds => (digitsVal ds).map (fun n => -(n : Int))
  | ds => (digitsVal ds).map (fun n => (n : Int))

/-- The distinct validation messages raised by `ExtractSerialNumbers`. -/
inductive SerialError where
  | emptyInput : SerialError
  | duplicateSerial (n : Int) : SerialError
  | invalidGroup (g : List Char) : SerialError
  | noSerialsFound : SerialError
  | countMismatch (found : Nat) (expected : Int) : SerialError
  deriving DecidableEq, Repr

/-- Loop body `if n in numbers: errors.append(...) else: numbers.append(n)`.
State is the pair (numbers, errors). -/
def addNumber (st : List Int × List SerialError) (n : Int) :
    List Int × List SerialError :=
  if st.1.contains n then (st.1, st.2 ++ [.duplicateSerial n])
  else (st.1 ++ [n], st.2)

/-- Python `range(a, b + 1)` as a list of integers. -/
def intRange (a b : Int) : List Int :=
  (List.range (b + 1 - a).toNat).map (fun i => a + Int.ofNat i)

/-- Body of the `for group in groups` loop of `ExtractSerialNumbers`:
a group containing `-` is split on hyphens and must give exactly two
integer endpoints with `a < b` (then the inclusive range is added,
number by number); any other group must parse as a single integer. -/
def processGroup (st : List Int × List SerialError) (g0 : List Char) :
    List Int × List SerialError :=
  let g := stripChars g0
  if g.contains '-' then
    match splitHyphen g with
    | [x, y] =>
      match pyInt (stripChars x), pyInt (stripChars y) with
      | some a, some b =>
        if a < b then (intRange a b).foldl addNumber st
        else (st.1, st.2 ++ [.invalidGroup g])
      | _, _ => (st.1, st.2 ++ [.invalidGroup g])
    | _ => (st.1, st.2 ++ [.invalidGroup g])
  else
    match pyInt g with
    | some n => addNumber st n
    | none => (st.1, st.2 ++ [.invalidGroup g])

/-- Checks after the loop of `ExtractSerialNumbers`: any collected errors are
raised together; then an empty result raises "No serial numbers found"; then
a count different from the expected quantity raises a mismatch error. -/
def checkResults (numbers : List Int) (errors : List SerialError)
    (expected : Int) : Except (List SerialError) (List Int) :=
  if errors.length > 0 then .error errors
  else if numbers.length = 0 then .error [.noSerialsFound]
  else if expected = (numbers.length : Int) then .ok numbers
  else .error [.countMismatch numbers.length expected]

/-- `ExtractSerialNumbers(serials, expected_quantity)`: strip the input,
fail on an empty string, split into groups, process every group, then apply
the post-loop checks. A raised `ValidationError` is the `error` case. -/
def extractSerials (serials : String) (expected : Int) :
    Except (List SerialError) (List Int) :=
  let s := stripChars serials.data
  let groups := splitSep s
  if s.length = 0 then .error [.emptyInput]
  else
    let res := groups.foldl processGroup ([], [])
    checkResults res.1 res.2 expected

/-- JSON values that appear in a barcode payload: strings and integers. -/
inductive JValue where
  | str (s : String) : JValue
  | int (n : Int) : JValue
  deriving DecidableEq, Repr

/-- Python `d[k] = v` on a dict modelled as an association list: replace the
value under `k` if the key is present, otherwise append the new binding. -/
def dictSet (d : List (String × JValue)) (k : String) (v : JValue) :
    List (String × JValue) :=
  if d.any (fun p => p.1 == k) then
    d.map (fun p => if p.1 == k then (k, v) else p)
  else d ++ [(k, v)]

/-- Python `d[k]`-style lookup: first binding under key `k`. -/
def lookupKey (d : List (String × JValue)) (k : String) : Option JValue :=
  match d with
  | [] => none
  | p :: ps => if p.1 == k then some p.2 else lookupKey ps k

/-- Minimal JSON string rendering (quote and backslash escaped; the full
control-character escapes of `json.dumps` are not exercised here). -/
def renderJsonString (s : String) : String :=
  "\"" ++ String.mk (s.data.flatMap
    (fun c => if c == '"' || c == '\\' then ['\\', c] else [c])) ++ "\""

/-- Rendering of a JSON value, as `json.dumps` renders str and int. -/
def renderJValue : JValue → String
  | .str s => renderJsonString s
  | .int n => toString n

/-- Lexicographic (code-point) comparison of character lists: Python's
string comparison used by `sort_keys=True`. -/
def charListLe : List Char → List Char → Bool
  | [], _ => true
  | _ :: _, [] => false
  | a :: as, b :: bs =>
    if a < b then true else if a = b then charListLe as bs else false

/-- Entry order used when serializing a dict with sorted keys. -/
def KeyLe (a b : String × JValue) : Prop :=
  charListLe a.1.data b.1.data = true

instance : DecidableRel KeyLe := fun a b =>
  inferInstanceAs (Decidable (charListLe a.1.data b.1.data = true))

/-- Keys sorted lexicographically: the effect of `sort_keys=True`. -/
def sortByKey (d : List (String × JValue)) : List (String × JValue) :=
  d.insertionSort KeyLe

/-- Python `json.dumps(d, sort_keys=True)` with its default separators
`", "` and `": "`: entries in ascending key order. -/
def jsonDumps (d : List (String × JValue)) : String :=
  "\x7b" ++ String.intercalate ", "
    ((sortByKey d).map (fun p => renderJsonString p.1 ++ ": " ++ renderJValue p.2))
    ++ "\x7d"

/-- The dict after `MakeBarcode` has written its four fixed entries into the
caller's `data` dict: `type`, `id`, `url`, then `tool = "InvenTree"`. -/
def barcodeDict (object_type : String) (object_id : Int) (object_url : String)
    (data : List (String × JValue)) : List (String × JValue) :=
  dictSet (dictSet (dictSet (dictSet data "type" (.str object_type))
    "id" (.int object_id)) "url" (.str object_url)) "tool" (.str "InvenTree")

/-- `MakeBarcode(object_type, object_id, object_url, data)`. The Python
function assigns its four fixed keys into the caller's `data` dict in place
and returns `json.dumps(data, sort_keys=True)`; the in-place mutation is made
explicit by returning the JSON string together with the state of the caller's
dict after the call. -/
def MakeBarcode (object_type : String) (object_id : Int) (object_url : String)
    (data : List (String × JValue)) : String × List (String × JValue) :=
  (jsonDumps (barcodeDict object_type object_id object_url data),
   barcodeDict object_type object_id object_url data)

/-- Audit actions recorded by the stock engine (spec §3, StockItemTracking). -/
inductive TrackAction where
  | created | moved | added | removed | stocktake | split | serialized
  deriving DecidableEq, Repr

/-- A StockItem record (spec §3): part and location references, quantity,
optional serial, delete-on-deplete flag, batch and notes strings. -/
structure StockItem where
  part : Nat
  location : Option Nat
  quantity : Int
  serial : Option Int
  delete_on_deplete : Bool
  batch : String
  notes : String
  deriving DecidableEq, Repr

/-- One audit record (spec §3): action kind, quantity snapshot, location
snapshot, user reference, freeform notes. -/
structure TrackingEntry where
  action : TrackAction
  quantity : Int
  location : Option Nat
  user : Option Nat
  notes : String
  deriving DecidableEq, Repr

/-- Modelled from the spec: `StockItem.splitStock` of `stock/models.py` is not
under src (only `stock/tests.py` exercises it). Per spec §4.3, `split(qty,
user, location=current)` with `0 < qty < current quantity` decrements the
source by `qty` and creates a new StockItem with quantity `qty` at the given
location, copying part/batch/notes, recording a SPLIT tracking entry; for
`qty ≤ 0` or `qty ≥ current quantity` it is a no-op failure that creates
nothing and changes nothing. -/
def splitStock (item : StockItem) (qty : Int) (user : Option Nat)
    (location : Option Nat := item.location) :
    Option (StockItem × StockItem × TrackingEntry) :=
  if 0 < qty ∧ qty < item.quantity then
    some ({ item with quantity := item.quantity - qty },
          { part := item.part, location := location, quantity := qty,
            serial := none, delete_on_deplete := item.delete_on_deplete,
            batch := item.batch, notes := item.notes },
          { action := .split, quantity := qty, location := location,
            user := user, notes := "" })
  else none

/-! Helper lemmas about the serial number parser. -/

theorem addNumber_errors_mono (st : List Int × List SerialError) (n : Int) :
    ∃ t, (addNumber st n).2 = st.2 ++ t := by
  by_cases h : n ∈ st.1
  · exact ⟨[.duplicateSerial n], by simp [addNumber, h]⟩
  · exact ⟨[], by simp [addNumber, h]⟩

theorem foldl_addNumber_errors_mono (l : List Int)
    (st : List Int × List SerialError) :
    ∃ t, (l.foldl addNumber st).2 = st.2 ++ t := by
  induction l generalizing st with
  | nil => exact ⟨[], by simp⟩
  | cons n rest ih =>
    obtain ⟨t1, h1⟩ := addNumber_errors_mono st n
    obtain ⟨t2, h2⟩ := ih (addNumber st n)
    exact ⟨t1 ++ t2, by rw [List.foldl_cons, h2, h1, List.append_assoc]⟩

theorem processGroup_errors_mono (st : List Int × List SerialError)
    (g0 : List Char) : ∃ t, (processGroup st g0).2 = st.2 ++ t := by
  simp only [processGroup]
  split
  · split
    · split
      · split
        · exact foldl_addNumber_errors_mono _ _
        · exact ⟨_, rfl⟩
      · exact ⟨_, rfl⟩
    · exact ⟨_, rfl⟩
  · split
    · exact addNumber_errors_mono _ _
    · exact ⟨_, rfl⟩

theorem addNumber_not_mem (st : List Int × List SerialError) (n : Int)
    (h : n ∉ st.1) : addNumber st n = (st.1 ++ [n], st.2) := by
  simp [addNumber, h]

theorem foldl_addNumber_fresh (l : List Int) (ns : List Int)
    (es : List SerialError) (hnd : l.Nodup) (hf : ∀ n ∈ l, n ∉ ns) :
    l.foldl addNumber (ns, es) = (ns ++ l, es) := by
  induction l generalizing ns with
  | nil => simp
  | cons x rest ih =>
    have hx : x ∉ ns := hf x (List.mem_cons_self x rest)
    rw [List.foldl_cons, addNumber_not_mem (ns, es) x hx]
    have hrest : ∀ n ∈ rest, n ∉ ns ++ [x] := by
      intro n hn
      simp only [List.mem_append, List.mem_singleton]
      rintro (h1 | rfl)
      · exact hf n (List.mem_cons_of_mem x hn) h1
      · exact (List.nodup_cons.mp hnd).1 hn
    rw [ih (ns ++ [x]) (List.nodup_cons.mp hnd).2 hrest, List.append_assoc]
    rfl

theorem intRange_nodup (a b : Int) : (intRange a b).Nodup := by
  unfold intRange
  refine List.Nodup.map ?_ (List.nodup_range _)
  intro i j h
  dsimp only at h
  exact Int.ofNat.inj (add_left_cancel h)

theorem splitHyphen_length (l : List Char) :
    (splitHyphen l).length = l.count '-' + 1 := by
  induction l with
  | nil => rfl
  | cons c cs ih =>
    by_cases h : c = '-'
    · subst h
      simp [splitHyphen, List.count_cons, ih]
    · have hb : (c == '-') = false := by simpa using h
      cases hs : splitHyphen cs with
      | nil => rw [hs] at ih; simp at ih
      | cons r rs =>
        rw [hs] at ih
        simp [splitHyphen, hb, hs, List.count_cons, h]
        simp only [List.length_cons] at ih
        omega

theorem dropWhile_of_false {p : Char → Bool} {l : List Char}
    (h : ∀ c ∈ l, p c = false) : l.dropWhile p = l := by
  cases l with
  | nil => rfl
  | cons a t =>
    rw [List.dropWhile_cons]
    simp [h a (List.mem_cons_self a t)]

theorem stripChars_of_no_space {l : List Char}
    (h : ∀ c ∈ l, isSpaceChar c = false) : stripChars l = l := by
  unfold stripChars
  rw [dropWhile_of_false h, dropWhile_of_false, List.reverse_reverse]
  intro c hc
  exact h c (List.mem_reverse.mp hc)

theorem splitSep_of_no_sep (l : List Char)
    (h : ∀ c ∈ l, isSepChar c = false) : splitSep l = [l] := by
  induction l with
  | nil => rfl
  | cons c cs ih =>
    have hc : isSepChar c = false := h c (List.mem_cons_self c cs)
    have ihcs : splitSep cs = [cs] := ih (fun c hm => h c (List.mem_cons_of_mem _ hm))
    simp [splitSep, hc, ihcs]

/-! Claim theorems about the serial number parser. -/

/-- C1. The spec (and the function's own docstring) require every returned
serial to be a positive integer, but the code never checks positivity:
`ExtractSerialNumbers("0", 1)` succeeds and returns `[0]`, which contains a
serial that is not `> 0`. -/
theorem extract_serials_accepts_zero :
    ∃ l, extractSerials "0" 1 = .ok l ∧ ∃ n ∈ l, ¬ 0 < n :=
  ⟨[0], rfl, 0, by decide, by decide⟩

/-- C2. Error aggregation: whenever processing the groups of a (nonempty)
input collects at least one error, the call fails with exactly the full list
of collected errors; and processing a group never discards errors collected
before it (each group appends its own errors, so processing continues past
problems). -/
theorem extract_serials_error_aggregation (s : String) (q : Int)
    (st : List Int × List SerialError) (g : List Char)
    (h0 : stripChars s.data ≠ [])
    (h1 : ((splitSep (stripChars s.data)).foldl processGroup ([], [])).2 ≠ []) :
    extractSerials s q =
      .error ((splitSep (stripChars s.data)).foldl processGroup ([], [])).2
    ∧ ∃ t, (processGroup st g).2 = st.2 ++ t := by
  constructor
  · have hlen : ¬ (stripChars s.data).length = 0 := by
      simpa [List.length_eq_zero] using h0
    simp only [extractSerials]
    rw [if_neg hlen]
    simp only [checkResults]
    rw [if_pos]
    exact Nat.pos_of_ne_zero (by simpa [List.length_eq_zero] using h1)
  · exact processGroup_errors_mono st g

/-- C2 witness: the input `"5, 5, a"` collects a duplicate error and an
invalid-group error and fails with both. -/
theorem extract_serials_error_aggregation_witness :
    extractSerials "5, 5, a" 2 =
      .error ((splitSep (stripChars "5, 5, a".data)).foldl
        processGroup ([], [])).2
    ∧ ∃ t, (processGroup ([1], []) "2".data).2 = [] ++ t :=
  extract_serials_error_aggregation "5, 5, a" 2 ([1], []) "2".data
    (by decide) (by decide)

/-- C4. Concrete behavior: `"1-5"` with expected count 5 gives exactly
1..5; `"1, 2, 3, 4, 5"` gives the same numbers; `"1-5, 10-15"` with
expected count 11 succeeds with 11 distinct numbers including 3 and 13. -/
theorem extract_serials_examples :
    extractSerials "1-5" 5 = .ok [1, 2, 3, 4, 5]
    ∧ extractSerials "1, 2, 3, 4, 5" 5 = .ok [1, 2, 3, 4, 5]
    ∧ ∃ l, extractSerials "1-5, 10-15" 11 = .ok l
        ∧ l.length = 11 ∧ l.Nodup ∧ (3 : Int) ∈ l ∧ (13 : Int) ∈ l :=
  ⟨rfl, rfl, [1, 2, 3, 4, 5, 10, 11, 12, 13, 14, 15], rfl, rfl,
    by decide, by decide, by decide⟩

/-- C3. Range groups: with the group splitting on the hyphen into exactly two
endpoints, (i) if both endpoints parse as integers with `a < b` the whole
inclusive range `a..b` is appended (when none of it was already seen);
(ii) if both parse but `a ≥ b` the group contributes one invalid-group error
and no numbers; (iii) if either endpoint fails to parse, likewise. -/
theorem extract_serials_range_semantics (g x y : List Char) (a b : Int)
    (numbers : List Int) (errors : List SerialError)
    (hdash : (stripChars g).contains '-' = true)
    (hsplit : splitHyphen (stripChars g) = [x, y]) :
    (pyInt (stripChars x) = some a → pyInt (stripChars y) = some b → a < b →
      (∀ n ∈ intRange a b, n ∉ numbers) →
      processGroup (numbers, errors) g = (numbers ++ intRange a b, errors))
    ∧ (pyInt (stripChars x) = some a → pyInt (stripChars y) = some b → b ≤ a →
      processGroup (numbers, errors) g =
        (numbers, errors ++ [.invalidGroup (stripChars g)]))
    ∧ ((pyInt (stripChars x) = none ∨ pyInt (stripChars y) = none) →
      processGroup (numbers, errors) g =
        (numbers, errors ++ [.invalidGroup (stripChars g)])) := by
  refine ⟨?_, ?_, ?_⟩
  · intro hx hy hab hfresh
    have hfold := foldl_addNumber_fresh (intRange a b) numbers errors
      (intRange_nodup a b) hfresh
    simp only [processGroup, hdash, if_true, hsplit, hx, hy, hab, hfold]
  · intro hx hy hba
    have hnot : ¬ a < b := not_lt.mpr hba
    simp only [processGroup, hdash, if_true, hsplit, hx, hy, hnot, if_false]
  · intro hnone
    rcases hx : pyInt (stripChars x) with _ | a0 <;>
      rcases hy : pyInt (stripChars y) with _ | b0 <;>
      simp only [processGroup, hdash, if_true, hsplit, hx, hy] <;>
      simp [hx, hy] at hnone

/-- C3 witness: `1-3` expands to 1,2,3; `5-2` and `1-x` are invalid groups. -/
theorem extract_serials_range_semantics_witness :
    processGroup ([], []) "1-3".data = ([] ++ intRange 1 3, [])
    ∧ processGroup ([], []) "5-2".data =
        ([], [] ++ [.invalidGroup (stripChars "5-2".data)])
    ∧ processGroup ([], []) "1-x".data =
        ([], [] ++ [.invalidGroup (stripChars "1-x".data)]) :=
  ⟨(extract_serials_range_semantics "1-3".data "1".data "3".data 1 3 [] []
      (by decide) (by decide)).1 (by decide) (by decide) (by decide) (by decide),
   (extract_serials_range_semantics "5-2".data "5".data "2".data 5 2 [] []
      (by decide) (by decide)).2.1 (by decide) (by decide) (by decide),
   (extract_serials_range_semantics "1-x".data "1".data "x".data 0 0 [] []
      (by decide) (by decide)).2.2 (Or.inr (by decide))⟩

/-- C5. Check ordering: an input that strips to the empty string fails with
the empty-input error before any group is processed; otherwise the result is
the post-loop checks applied to the full fold, and those checks report
no-serials-found when no error and no number was collected, and a
count-mismatch when the unique count differs from the expected quantity. -/
theorem extract_serials_check_order (s : String) (q : Int)
    (numbers : List Int) (errors : List SerialError) :
    (stripChars s.data = [] → extractSerials s q = .error [.emptyInput])
    ∧ (errors = [] → numbers = [] →
        checkResults numbers errors q = .error [.noSerialsFound])
    ∧ (errors = [] → numbers ≠ [] → q ≠ (numbers.length : Int) →
        checkResults numbers errors q = .error [.countMismatch numbers.length q])
    ∧ (stripChars s.data ≠ [] → extractSerials s q =
        checkResults
          ((splitSep (stripChars s.data)).foldl processGroup ([], [])).1
          ((splitSep (stripChars s.data)).foldl processGroup ([], [])).2 q) := by
  refine ⟨?_, ?_, ?_, ?_⟩
  · intro h
    simp only [extractSerials]
    rw [if_pos (by simp [h])]
  · rintro rfl rfl
    rfl
  · intro he hn hq
    subst he
    simp only [checkResults]
    rw [if_neg (by simp), if_neg (by simpa [List.length_eq_zero] using hn),
      if_neg hq]
  · intro h
    simp only [extractSerials]
    rw [if_neg (by simpa [List.length_eq_zero] using h)]

/-- C5 witness: whitespace-only input, an empty result, a one-element result
against expected count 5, and a short nonempty input. -/
theorem extract_serials_check_order_witness :
    extractSerials "  " 5 = .error [.emptyInput]
    ∧ checkResults [] [] 5 = .error [.noSerialsFound]
    ∧ checkResults [7] [] 5 = .error [.countMismatch 1 5]
    ∧ extractSerials "7" 5 =
        checkResults
          ((splitSep (stripChars "7".data)).foldl processGroup ([], [])).1
          ((splitSep (stripChars "7".data)).foldl processGroup ([], [])).2 5 :=
  ⟨(extract_serials_check_order "  " 5 [] []).1 (by decide),
   (extract_serials_check_order "  " 5 [] []).2.1 rfl rfl,
   (extract_serials_check_order "  " 5 [7] []).2.2.1 rfl (by decide) (by decide),
   (extract_serials_check_order "7" 5 [] []).2.2.2 (by decide)⟩

/-- C10. A group whose stripped form holds two or more hyphens splits into
more than two parts, is recorded as an invalid-group error and contributes no
numbers; an input consisting of just such a group (no separators) always
fails. -/
theorem multi_hyphen_group_invalid (numbers : List Int)
    (errors : List SerialError) (g : List Char) (q : Int)
    (h2 : 2 ≤ (stripChars g).count '-')
    (hsep : ∀ c ∈ g, isSepChar c = false) :
    processGroup (numbers, errors) g =
      (numbers, errors ++ [.invalidGroup (stripChars g)])
    ∧ extractSerials (String.mk g) q = .error [.invalidGroup g] := by
  have hmem : '-' ∈ stripChars g := List.count_pos_iff.mp (by omega)
  have hdash : (stripChars g).contains '-' = true := List.elem_iff.mpr hmem
  have hlen : 3 ≤ (splitHyphen (stripChars g)).length := by
    rw [splitHyphen_length]; omega
  have hmain : ∀ ns es, processGroup (ns, es) g =
      (ns, es ++ [.invalidGroup (stripChars g)]) := by
    intro ns es
    rcases hs : splitHyphen (stripChars g) with _ | ⟨r1, _ | ⟨r2, _ | ⟨r3, rest⟩⟩⟩
    · rw [hs] at hlen; simp at hlen
    · rw [hs] at hlen; simp at hlen
    · rw [hs] at hlen; simp at hlen
    · simp [processGroup, hdash, hs, hmem]
  refine ⟨hmain numbers errors, ?_⟩
  have hnosp : ∀ c ∈ g, isSpaceChar c = false := by
    intro c hc
    have h := hsep c hc
    simp only [isSepChar, Bool.or_eq_false_iff] at h
    exact h.1
  have hstrip : stripChars g = g := stripChars_of_no_space hnosp
  have hg : g ≠ [] := by
    rintro rfl
    rw [hstrip] at h2
    simp at h2
  simp only [extractSerials]
  rw [hstrip]
  rw [if_neg (by simpa [List.length_eq_zero] using hg)]
  rw [splitSep_of_no_sep g hsep]
  simp only [List.foldl_cons, List.foldl_nil]
  rw [hmain [] []]
  rw [hstrip]
  simp [checkResults]

/-- C10 witness: the group `1-5-10` on its own. -/
theorem multi_hyphen_group_invalid_witness :
    processGroup ([], []) "1-5-10".data =
      ([], [] ++ [.invalidGroup (stripChars "1-5-10".data)])
    ∧ extractSerials (String.mk "1-5-10".data) 10 =
        .error [.invalidGroup "1-5-10".data] :=
  multi_hyphen_group_invalid [] [] "1-5-10".data 10 (by decide) (by decide)

/-- C6. Split conservation (modelled from the spec, see `splitStock`):
for `0 < qty < Q` the source keeps `Q - qty`, the new item carries `qty`
(same part, batch, notes, given location) so the two quantities sum to `Q`,
and a SPLIT tracking entry is produced; otherwise the call is a no-op
failure. -/
theorem split_stock_conservation (item : StockItem) (qty : Int)
    (user : Option Nat) (loc : Option Nat) :
    (0 < qty → qty < item.quantity →
      splitStock item qty user loc =
        some ({ item with quantity := item.quantity - qty },
          { part := item.part, location := loc, quantity := qty,
            serial := none, delete_on_deplete := item.delete_on_deplete,
            batch := item.batch, notes := item.notes },
          { action := .split, quantity := qty, location := loc,
            user := user, notes := "" })
      ∧ (item.quantity - qty) + qty = item.quantity)
    ∧ ((qty ≤ 0 ∨ item.quantity ≤ qty) → splitStock item qty user loc = none) := by
  constructor
  · intro h1 h2
    refine ⟨?_, by ring⟩
    simp [splitStock, h1, h2]
  · intro h
    simp only [splitStock]
    rw [if_neg (by omega)]

/-- C6 witness: splitting 3 out of 10 succeeds and conserves quantity;
splitting the whole quantity is a no-op failure. -/
theorem split_stock_conservation_witness :
    (splitStock ⟨1, some 2, 10, none, false, "B", "N"⟩ 3 none (some 2) =
        some (⟨1, some 2, 10 - 3, none, false, "B", "N"⟩,
          ⟨1, some 2, 3, none, false, "B", "N"⟩,
          ⟨.split, 3, some 2, none, ""⟩)
      ∧ ((10 : Int) - 3) + 3 = 10)
    ∧ splitStock ⟨1, some 2, 10, none, false, "B", "N"⟩ 10 none (some 2) = none :=
  ⟨(split_stock_conservation ⟨1, some 2, 10, none, false, "B", "N"⟩ 3 none
      (some 2)).1 (by decide) (by decide),
   (split_stock_conservation ⟨1, some 2, 10, none, false, "B", "N"⟩ 10 none
      (some 2)).2 (Or.inr (by decide))⟩

/-! Helper lemmas about dicts and the key ordering. -/

theorem charListLe_cons (a b : Char) (as bs : List Char) :
    charListLe (a :: as) (b :: bs) = true ↔
      a < b ∨ (a = b ∧ charListLe as bs = true) := by
  simp only [charListLe]
  by_cases h1 : a < b
  · simp [h1]
  · by_cases h2 : a = b
    · simp [h1, h2]
    · simp [h1, h2]

theorem charListLe_total (x y : List Char) :
    charListLe x y = true ∨ charListLe y x = true := by
  induction x generalizing y with
  | nil => exact Or.inl rfl
  | cons a as ih =>
    cases y with
    | nil => exact Or.inr rfl
    | cons b bs =>
      rcases lt_trichotomy a b with h | h | h
      · exact Or.inl ((charListLe_cons a b as bs).mpr (Or.inl h))
      · subst h
        rcases ih bs with h' | h'
        · exact Or.inl ((charListLe_cons a a as bs).mpr (Or.inr ⟨rfl, h'⟩))
        · exact Or.inr ((charListLe_cons a a bs as).mpr (Or.inr ⟨rfl, h'⟩))
      · exact Or.inr ((charListLe_cons b a bs as).mpr (Or.inl h))

theorem charListLe_trans : ∀ (x y z : List Char), charListLe x y = true →
    charListLe y z = true → charListLe x z = true := by
  intro x
  induction x with
  | nil => intro y z _ _; rfl
  | cons a as ih =>
    intro y z hxy hyz
    cases y with
    | nil => simp [charListLe] at hxy
    | cons b bs =>
      cases z with
      | nil => simp [charListLe] at hyz
      | cons c cs =>
        rw [charListLe_cons] at hxy hyz ⊢
        rcases hxy with h1 | ⟨rfl, h1⟩
        · rcases hyz with h2 | ⟨rfl, h2⟩
          · exact Or.inl (lt_trans h1 h2)
          · exact Or.inl h1
        · rcases hyz with h2 | ⟨rfl, h2⟩
          · exact Or.inl h2
          · exact Or.inr ⟨rfl, ih bs cs h1 h2⟩

instance : IsTotal (String × JValue) KeyLe :=
  ⟨fun a b => charListLe_total a.1.data b.1.data⟩

instance : IsTrans (String × JValue) KeyLe :=
  ⟨fun a b c => charListLe_trans a.1.data b.1.data c.1.data⟩

theorem keys_dictSet (d : List (String × JValue)) (k k' : String) (v : JValue) :
    k' ∈ (dictSet d k v).map Prod.fst ↔ k' ∈ d.map Prod.fst ∨ k' = k := by
  unfold dictSet
  by_cases h : d.any (fun p => p.1 == k)
  · rw [if_pos h]
    have hkeys : (d.map (fun p => if p.1 == k then (k, v) else p)).map Prod.fst
        = d.map Prod.fst := by
      rw [List.map_map]
      refine List.map_congr_left ?_
      intro p _
      by_cases hpk : p.1 == k
      · simp only [Function.comp_apply, hpk, if_true]
        exact (eq_of_beq hpk).symm
      · have hpk2 : ¬ p.1 = k := by simpa using hpk
        simp [Function.comp_apply, hpk2]
    rw [hkeys]
    constructor
    · exact Or.inl
    · rintro (hm | rfl)
      · exact hm
      · obtain ⟨p, hp, hpk⟩ := List.any_eq_true.mp h
        exact List.mem_map.mpr ⟨p, hp, by simpa using hpk⟩
  · rw [if_neg h]
    simp [List.map_append, List.mem_append]

theorem mem_dictSet_key_eq (d : List (String × JValue)) (k : String)
    (v : JValue) : ∀ p ∈ dictSet d k v, p.1 = k → p = (k, v) := by
  unfold dictSet
  by_cases h : d.any (fun p => p.1 == k)
  · rw [if_pos h]
    intro p hp hpk
    obtain ⟨p0, _, rfl⟩ := List.mem_map.mp hp
    by_cases h0 : p0.1 == k
    · simp [h0]
    · simp only [h0, if_false] at hpk ⊢
      exact absurd hpk (by simpa using h0)
  · rw [if_neg h]
    intro p hp hpk
    rcases List.mem_append.mp hp with hd | hnew
    · rw [List.any_eq_true] at h
      exact absurd ⟨p, hd, by simpa using hpk⟩ h
    · simpa using hnew

theorem mem_dictSet_key_preserved (d : List (String × JValue))
    (k k' : String) (v v' : JValue) (hk : k ≠ k')
    (hall : ∀ p ∈ d, p.1 = k → p = (k, v)) :
    ∀ p ∈ dictSet d k' v', p.1 = k → p = (k, v) := by
  unfold dictSet
  by_cases h : d.any (fun p => p.1 == k')
  · rw [if_pos h]
    intro p hp hpk
    obtain ⟨p0, hp0, rfl⟩ := List.mem_map.mp hp
    by_cases h0 : p0.1 == k'
    · simp only [h0, if_true] at hpk
      exact absurd hpk.symm hk
    · simp only [h0, if_false] at hpk ⊢
      exact hall p0 hp0 hpk
  · rw [if_neg h]
    intro p hp hpk
    rcases List.mem_append.mp hp with hd | hnew
    · exact hall p hd hpk
    · have : p = (k', v') := by simpa using hnew
      rw [this] at hpk
      exact absurd hpk.symm hk

theorem mem_dictSet_of_ne (d : List (String × JValue)) (k : String)
    (v : JValue) : ∀ p ∈ dictSet d k v, p.1 ≠ k → p ∈ d := by
  unfold dictSet
  by_cases h : d.any (fun p => p.1 == k)
  · rw [if_pos h]
    intro p hp hpk
    obtain ⟨p0, hp0, rfl⟩ := List.mem_map.mp hp
    by_cases h0 : p0.1 == k
    · simp only [h0, if_true] at hpk
      exact absurd rfl hpk
    · simpa [h0] using hp0
  · rw [if_neg h]
    intro p hp hpk
    rcases List.mem_append.mp hp with hd | hnew
    · exact hd
    · have : p = (k, v) := by simpa using hnew
      rw [this] at hpk
      exact absurd rfl hpk

theorem lookupKey_eq_of_all (d : List (String × JValue)) (k : String)
    (v : JValue) (hall : ∀ p ∈ d, p.1 = k → p = (k, v))
    (hmem : k ∈ d.map Prod.fst) : lookupKey d k = some v := by
  induction d with
  | nil => simp at hmem
  | cons p ps ih =>
    by_cases hpk : p.1 == k
    · have : p = (k, v) := hall p (List.mem_cons_self p ps) (by simpa using hpk)
      simp [lookupKey, hpk, this]
    · simp only [lookupKey, hpk, if_false]
      refine ih (fun q hq => hall q (List.mem_cons_of_mem p hq)) ?_
      rcases List.mem_map.mp hmem with ⟨q, hq, hqk⟩
      rcases List.mem_cons.mp hq with rfl | hq'
      · exact absurd hqk (by simpa using hpk)
      · exact List.mem_map.mpr ⟨q, hq', hqk⟩

/-! Claim theorems about the barcode builder. -/

/-- C7. The barcode payload is the JSON rendering of the caller's dict
updated with the four fixed entries: its key set is the keys of `extra`
together with `type`, `id`, `url`, `tool`; `tool` maps to the constant
`"InvenTree"`; and serialization emits the entries with keys in
lexicographic order (and exactly the dict's entries, as a permutation). -/
theorem make_barcode_keys_sorted (t : String) (i : Int) (u : String)
    (data : List (String × JValue)) :
    (MakeBarcode t i u data).1 = jsonDumps (barcodeDict t i u data)
    ∧ (∀ k, k ∈ (barcodeDict t i u data).map Prod.fst ↔
        (k ∈ data.map Prod.fst ∨
          k ∈ (["type", "id", "url", "tool"] : List String)))
    ∧ lookupKey (barcodeDict t i u data) "tool" = some (.str "InvenTree")
    ∧ List.Pairwise (fun k1 k2 : String => charListLe k1.data k2.data = true)
        ((sortByKey (barcodeDict t i u data)).map Prod.fst)
    ∧ (sortByKey (barcodeDict t i u data)).Perm (barcodeDict t i u data) := by
  refine ⟨rfl, ?_, ?_, ?_, ?_⟩
  · intro k
    unfold barcodeDict
    rw [keys_dictSet, keys_dictSet, keys_dictSet, keys_dictSet]
    simp only [List.mem_cons, List.not_mem_nil, or_false]
    tauto
  · exact lookupKey_eq_of_all _ _ _
      (mem_dictSet_key_eq _ "tool" _)
      ((keys_dictSet _ "tool" "tool" _).mpr (Or.inr rfl))
  · exact List.pairwise_map.mpr
      (List.sorted_insertionSort KeyLe (barcodeDict t i u data))
  · exact List.perm_insertionSort KeyLe _

/-- Concrete rendering check mirroring the unit test `TestMakeBarcode`:
the output is a JSON object with sorted keys, `", "` and `": "` separators,
and contains the binding `"tool": "InvenTree"`. -/
theorem make_barcode_render_example :
    (MakeBarcode "part" 3 "www.google.com"
      [("animal", .str "cat"), ("legs", .int 3), ("noise", .str "purr")]).1 =
    "\x7b\"animal\": \"cat\", \"id\": 3, \"legs\": 3, \"noise\": \"purr\", \"tool\": \"InvenTree\", \"type\": \"part\", \"url\": \"www.google.com\"\x7d" := by
  rfl

/-- C8 counterexample: the caller's `data` dict is not left unchanged — a
call with an initially empty dict leaves it holding the four fixed entries,
so `MakeBarcode` is not free of side effects on its argument. -/
theorem make_barcode_mutates_data :
    (MakeBarcode "part" 3 "www.google.com" []).2 ≠
      ([] : List (String × JValue)) := by decide

/-- C8 amended: the returned string is determined by the arguments alone
(it equals the JSON rendering of the updated dict), but the caller's dict is
mutated in place: after the call it is exactly the input dict with the four
fixed keys upserted, every non-fixed entry being left untouched. -/
theorem make_barcode_effect (t : String) (i : Int) (u : String)
    (data : List (String × JValue)) :
    MakeBarcode t i u data =
      (jsonDumps (barcodeDict t i u data), barcodeDict t i u data)
    ∧ (∀ p ∈ barcodeDict t i u data,
        p.1 ∉ (["type", "id", "url", "tool"] : List String) → p ∈ data) := by
  refine ⟨rfl, ?_⟩
  intro p hp hnot
  simp only [List.mem_cons, List.not_mem_nil, or_false, not_or] at hnot
  obtain ⟨ht, hi, hu, htool⟩ := hnot
  have h3 := mem_dictSet_of_ne _ "tool" _ p hp htool
  have h2 := mem_dictSet_of_ne _ "url" _ p h3 hu
  have h1 := mem_dictSet_of_ne _ "id" _ p h2 hi
  exact mem_dictSet_of_ne _ "type" _ p h1 ht

/-- C8 witness for the amended claim: an entry under a non-fixed key
survives the call. -/
theorem make_barcode_effect_witness :
    MakeBarcode "part" 3 "u" [("animal", JValue.str "cat")] =
      (jsonDumps (barcodeDict "part" 3 "u" [("animal", JValue.str "cat")]),
        barcodeDict "part" 3 "u" [("animal", JValue.str "cat")])
    ∧ ("animal", JValue.str "cat") ∈ [("animal", JValue.str "cat")] :=
  ⟨(make_barcode_effect "part" 3 "u" [("animal", JValue.str "cat")]).1,
   (make_barcode_effect "part" 3 "u" [("animal", JValue.str "cat")]).2
     ("animal", JValue.str "cat") (by decide) (by decide)⟩

/-- C9. The fixed keys always carry the system-supplied values: every entry
of the updated dict under `type`, `id`, `url` or `tool` is exactly the fixed
binding, so a caller-supplied value under one of those keys never survives
into the output. -/
theorem make_barcode_overwrites_fixed_keys (t : String) (i : Int) (u : String)
    (data : List (String × JValue)) :
    ∀ p ∈ barcodeDict t i u data,
      (p.1 = "type" → p = ("type", .str t))
      ∧ (p.1 = "id" → p = ("id", .int i))
      ∧ (p.1 = "url" → p = ("url", .str u))
      ∧ (p.1 = "tool" → p = ("tool", .str "InvenTree")) := by
  intro p hp
  refine ⟨?_, ?_, ?_, ?_⟩
  · exact mem_dictSet_key_preserved _ "type" "tool" _ _ (by decide)
      (mem_dictSet_key_preserved _ "type" "url" _ _ (by decide)
        (mem_dictSet_key_preserved _ "type" "id" _ _ (by decide)
          (mem_dictSet_key_eq data "type" _))) p hp
  · exact mem_dictSet_key_preserved _ "id" "tool" _ _ (by decide)
      (mem_dictSet_key_preserved _ "id" "url" _ _ (by decide)
        (mem_dictSet_key_eq _ "id" _)) p hp
  · exact mem_dictSet_key_preserved _ "url" "tool" _ _ (by decide)
      (mem_dictSet_key_eq _ "url" _) p hp
  · exact mem_dictSet_key_eq _ "tool" _ p hp

/-- C9 witness: with a caller-supplied `type` entry, the updated dict is
exactly the four fixed bindings, and the entry under `type` found in it is
the system value, not the caller's. -/
theorem make_barcode_overwrites_fixed_keys_witness :
    barcodeDict "Part" 3 "u" [("type", JValue.str "fake")] =
      [("type", JValue.str "Part"), ("id", JValue.int 3),
        ("url", JValue.str "u"), ("tool", JValue.str "InvenTree")]
    ∧ (("type", JValue.str "Part") : String × JValue) =
        ("type", JValue.str "Part") :=
  ⟨rfl,
   (make_barcode_overwrites_fixed_keys "Part" 3 "u" [("type", JValue.str "fake")]
     ("type", JValue.str "Part") (by decide)).1 rfl⟩

end InvenTree
